import Mathlib

/-!
Verification of the hierarchical summarization core of todollama/gitllama
(src/gitllama/project_analyzer.py) against its natural-language spec.

Shallow embedding conventions:
  - text blobs (file contents, paths, prompts, responses) are `List Char`;
  - JSON object keys and JSON string payloads are `String`;
  - token costs are `Nat`;
  - the external completion capability `client.chat_stream` is a parameter
    `respond : List Char → List Char` (prompt to full concatenated response);
  - `json.loads` is a parameter `parse : List Char → Option Json`
    (`none` models a `JSONDecodeError`);
  - the possibly non-terminating recursive merge is given explicit fuel and
    returns `Option`.
-/

namespace GitLlama

/-- Modelled from the spec: `client.count_tokens` is declared on the Ollama
client but its body is not under src/.  Section 4.1 of the spec requires a
cost estimate that is monotonic in length, deterministic, and falls back to
a character-count heuristic; we model it as the character count. -/
def count_tokens (s : List Char) : Nat := s.length

/-- Split a text into exactly `n` contiguous parts, each part taking a
proportional share (the ceiling of the remaining length over the remaining
part count) of the characters. -/
def splitIntoParts : Nat → List Char → List (List Char)
  | 0, _ => []
  | n + 1, s =>
      s.take ((s.length + n) / (n + 1)) ::
        splitIntoParts n (s.drop ((s.length + n) / (n + 1)))

/-- Modelled from the spec: `client.split_into_chunks` is called by the
chunker but its body is not under src/.  Section 4.2 of the spec: split the
content into `ceil(cost / chunkSize)` contiguous sub-parts, splitting by
content length proportionally to cost. -/
def split_into_chunks (content : List Char) (chunk_size : Nat) : List (List Char) :=
  splitIntoParts ((count_tokens content + chunk_size - 1) / chunk_size) content

/-- A gathered file, as the dict built by `_step1_gather_repository_data`
(the `size_bytes` field is dropped by the chunker for split parts and never
read afterwards, so it is omitted). -/
structure TextUnit where
  path : List Char
  content : List Char
  tokens : Nat
  extension : List Char
  deriving DecidableEq

/-- Lexicographic comparison of paths by code point, as Python string
comparison orders the sort keys on source line 319. -/
def lexLe : List Char → List Char → Bool
  | [], _ => true
  | _ :: _, [] => false
  | a :: as, b :: bs => if a < b then true else if b < a then false else lexLe as bs

/-- The sorting relation of source line 319: compare files by path. -/
def pathLe (a b : TextUnit) : Prop := lexLe a.path b.path = true

/-- The singleton units produced for one oversized file by the splitting
branch of `_step2_create_chunks` (source lines 333-343). -/
def splitFileUnits (chunk_size : Nat) (file_data : TextUnit) : List TextUnit :=
  let content_chunks := split_into_chunks file_data.content chunk_size
  content_chunks.enum.map (fun ic =>
    { path := file_data.path ++ (" (part " ++ toString (ic.1 + 1) ++ "/" ++
        toString content_chunks.length ++ ")").toList
      content := ic.2
      tokens := count_tokens ic.2
      extension := file_data.extension })

/-- The greedy bin-packing loop of `_step2_create_chunks` (source lines
321-359), with the running chunk and running token count as explicit
state.  In the oversized branch the source resets the running state only
when it flushes, which is what the two sub-branches reproduce. -/
def chunkLoop (chunk_size : Nat) :
    List TextUnit → Nat → List TextUnit → List (List TextUnit)
  | current_chunk, _, [] =>
      if current_chunk.isEmpty then [] else [current_chunk]
  | current_chunk, current_tokens, file_data :: rest =>
      if chunk_size < file_data.tokens then
        if current_chunk.isEmpty then
          (splitFileUnits chunk_size file_data).map (fun u => [u]) ++
            chunkLoop chunk_size current_chunk current_tokens rest
        else
          current_chunk :: ((splitFileUnits chunk_size file_data).map (fun u => [u]) ++
            chunkLoop chunk_size [] 0 rest)
      else if chunk_size < current_tokens + file_data.tokens then
        if current_chunk.isEmpty then
          chunkLoop chunk_size [file_data] file_data.tokens rest
        else
          current_chunk :: chunkLoop chunk_size [file_data] file_data.tokens rest
      else
        chunkLoop chunk_size (current_chunk ++ [file_data])
          (current_tokens + file_data.tokens) rest

instance : DecidableRel pathLe := fun a b => by
  unfold pathLe; infer_instance

/-- Source line 319 sorts the files with a stable sort keyed by path
(Python `sorted` with a path key); every stable sort by the same key
produces the same list, so insertion sort is a faithful model. -/
def sortFiles (files : List TextUnit) : List TextUnit :=
  files.insertionSort pathLe

/-- STEP 2 of the pipeline, `_step2_create_chunks` (source lines 294-366):
reserve 500 tokens for the prompt, sort by path, then greedily pack. -/
def _step2_create_chunks (usable_context_size : Nat) (files : List TextUnit) :
    List (List TextUnit) :=
  chunkLoop (usable_context_size - 500) [] 0 (sortFiles files)

/-- Total cost of a chunk: the sum of the per-file token fields, as in the
logging loop of source lines 362-364. -/
def chunkTokens (chunk : List TextUnit) : Nat :=
  (chunk.map TextUnit.tokens).sum

/-- JSON values, the shape of the dicts flowing through steps 3 to 5. -/
inductive Json where
  | null : Json
  | bool (b : Bool) : Json
  | num (n : Int) : Json
  | str (s : String) : Json
  | arr (xs : List Json) : Json
  | obj (kvs : List (String × Json)) : Json

/-- Dictionary lookup, `d[key]` / the success case of `d.get(key)`. -/
def jget : List (String × Json) → String → Option Json
  | [], _ => none
  | kv :: rest, key => if kv.1 = key then some kv.2 else jget rest key

/-- Python dict get with a default, `d.get(key, default)`. -/
def jgetD (kvs : List (String × Json)) (key : String) (dflt : Json) : Json :=
  (jget kvs key).getD dflt

/-- Assignment `d[key] = v`: replace the binding if present, else append it. -/
def jset : List (String × Json) → String → Json → List (String × Json)
  | [], key, v => [(key, v)]
  | kv :: rest, key, v => if kv.1 = key then (key, v) :: rest else kv :: jset rest key v

/-- Model of stdlib `json.dumps(summary, indent=2)` as used on source line
498.  The serialization is only ever compared against the budget and pasted
into a prompt, so the exact whitespace and escaping are immaterial; what
matters is that the size grows with the summary. -/
def jsonDumps : Json → List Char
  | .null => "null".toList
  | .bool true => "true".toList
  | .bool false => "false".toList
  | .num n => (toString n).toList
  | .str s => '"' :: (s.toList ++ ['"'])
  | .arr xs =>
      '[' :: (List.intercalate (", ".toList) (xs.attach.map (fun x => jsonDumps x.1)) ++ [']'])
  | .obj kvs =>
      "\x7b".toList ++
        List.intercalate (", ".toList)
          (kvs.attach.map (fun kv =>
            '"' :: (kv.1.1.toList ++ "\": ".toList ++ jsonDumps kv.1.2))) ++
        "\x7d".toList
  decreasing_by
  · have h := List.sizeOf_lt_of_mem x.2
    simp only [Json.arr.sizeOf_spec]
    omega
  · have h := List.sizeOf_lt_of_mem kv.2
    obtain ⟨⟨k, v⟩, hm⟩ := kv
    simp only [Prod.mk.sizeOf_spec] at h
    simp only [Json.obj.sizeOf_spec]
    omega

/-- The per-file preview of `_analyze_single_chunk` (source lines 409-411):
first 2000 characters, with a truncation marker when cut. -/
def filePreview (file_data : TextUnit) : List Char :=
  file_data.content.take 2000 ++
    (if 2000 < file_data.content.length then ("\n... [content truncated]").toList else [])

/-- The chunk context of `_analyze_single_chunk` (source lines 405-415). -/
def chunkContext (chunk : List TextUnit) : List Char :=
  List.intercalate ['\n'] (chunk.flatMap (fun file_data =>
    ["=== File: ".toList ++ file_data.path ++ " ===".toList,
     filePreview file_data, []]))

/-- Test of source line 434: the branch is named and is not main/master. -/
def notMainMaster (bc : List Char) : Bool :=
  !(bc == "main".toList || bc == "master".toList)

/-- The analysis prompt of `_analyze_single_chunk` (source lines 422-448). -/
def chunkPrompt (chunk : List TextUnit) (chunk_index total_chunks : Nat)
    (branch_context : Option (List Char)) : List Char :=
  let branch_note := match branch_context with
    | some bc => " (Branch: ".toList ++ bc ++ [')']
    | none => []
  "Analyze this portion of a code repository".toList ++ branch_note ++
    (" (chunk " ++ toString chunk_index ++ " of " ++ toString total_chunks ++
      "):\n\n").toList ++
  chunkContext chunk ++
  "\n\nProvide a comprehensive analysis including:\n1. Main purpose/functionality of these files\n2. Technologies and frameworks used\n3. Code quality observations\n4. Key patterns or architectural decisions\n5. Notable features or issues\n".toList ++
  (match branch_context with
   | some bc =>
      if notMainMaster bc then
        ("6. How this branch \x27").toList ++ bc ++
          "\x27 differs from main (if apparent)".toList
      else []
   | none => []) ++
  "\n\nResponse in JSON format:\n\x7b\n    \"chunk_index\": ".toList ++
    (toString chunk_index).toList ++
  ",\n    \"file_count\": ".toList ++ (toString chunk.length).toList ++
  ",\n    \"main_purpose\": \"\",\n    \"technologies\": [],\n    \"patterns\": [],\n    \"quality_notes\": \"\",\n    \"key_features\": [],\n    ".toList ++
  (match branch_context with
   | some bc => "\"branch_context\": \"".toList ++ bc ++ "\",\n    ".toList
   | none => []) ++
  (match branch_context with
   | some bc => if notMainMaster bc then ("\"branch_differences\": \"\",\n    ").toList else []
   | none => []) ++
  "\"analysis_focus\": \"\"\n\x7d".toList

/-- The degraded chunk summary of source lines 461-465. -/
def degradedChunk (chunk_index file_count : Nat) (response : List Char) : Json :=
  Json.obj [(("chunk_index" : String), Json.num chunk_index),
            (("file_count"), Json.num file_count),
            (("raw_analysis"), Json.str (String.mk (response.take 500)))]

/-- STEP 3 worker, `_analyze_single_chunk` (source lines 400-465): one
external call, JSON parse, degrade to a raw-text dict on parse failure.
The second component counts external capability calls. -/
def _analyze_single_chunk (respond : List Char → List Char)
    (parse : List Char → Option Json) (chunk : List TextUnit)
    (chunk_index total_chunks : Nat) (branch_context : Option (List Char)) :
    Json × Nat :=
  let response := respond (chunkPrompt chunk chunk_index total_chunks branch_context)
  match parse response with
  | some analysis => (analysis, 1)
  | none => (degradedChunk chunk_index chunk.length response, 1)

/-- STEP 3, `_step3_analyze_chunks` (source lines 372-398): analyze the
chunks in index order, collecting summaries and the total call count. -/
def _step3_analyze_chunks (respond : List Char → List Char)
    (parse : List Char → Option Json) (chunks : List (List TextUnit))
    (branch_context : Option (List Char)) : List Json × Nat :=
  let results := chunks.enum.map (fun ic =>
    _analyze_single_chunk respond parse ic.2 (ic.1 + 1) chunks.length branch_context)
  (results.map Prod.fst, (results.map Prod.snd).sum)

/-- The merge context of `merge_recursive` (source lines 495-501). -/
def mergeContext (S : List Json) : List Char :=
  List.intercalate ['\n'] (S.enum.flatMap (fun is0 =>
    [("=== Summary " ++ toString (is0.1 + 1) ++ " ===").toList,
     jsonDumps is0.2, []]))

/-- The merge prompt of `merge_recursive` (source lines 514-536). -/
def mergePrompt (level : Nat) (S : List Json) (context : List Char) : List Char :=
  ("Merge these " ++ toString S.length ++
    " analyses into a unified summary:\n\n").toList ++ context ++
  "\n\nCreate a comprehensive merged analysis that:\n1. Identifies the overall project type and purpose\n2. Lists all technologies used across the codebase\n3. Describes the project architecture and structure\n4. Highlights key features and patterns\n5. Assesses overall code quality and state\n\nResponse in JSON format:\n\x7b\n    \"merge_level\": ".toList ++
  (toString level).toList ++
  ",\n    \"summaries_merged\": ".toList ++ (toString S.length).toList ++
  ",\n    \"project_type\": \"\",\n    \"overall_purpose\": \"\",\n    \"all_technologies\": [],\n    \"architecture\": \"\",\n    \"key_patterns\": [],\n    \"overall_quality\": \"\",\n    \"state\": \"\"\n\x7d".toList

/-- The degraded merge result of source lines 550-554. -/
def degradedMerge (level n : Nat) (response : List Char) : Json :=
  Json.obj [("merge_level", Json.num level),
            ("summaries_merged", Json.num n),
            ("raw_analysis", Json.str (String.mk (response.take 500)))]

/-- STEP 4 worker, `merge_recursive` (source lines 488-554), with explicit
fuel: the Python recursion has no a priori termination bound, and `none`
models non-termination within the given fuel.  The second component counts
external capability calls. -/
def merge_recursive (usable_context_size : Nat) (respond : List Char → List Char)
    (parse : List Char → Option Json) :
    Nat → List Json → Nat → Option (Json × Nat)
  | 0, _, _ => none
  | fuel + 1, summaries_to_merge, level =>
    match summaries_to_merge with
    | [s] => some (s, 0)
    | S =>
      let context := mergeContext S
      let context_tokens := count_tokens context
      if usable_context_size < context_tokens then
        let mid := S.length / 2
        match merge_recursive usable_context_size respond parse fuel (S.take mid) level with
        | none => none
        | some lc =>
          match merge_recursive usable_context_size respond parse fuel (S.drop mid) level with
          | none => none
          | some rc =>
            match merge_recursive usable_context_size respond parse fuel
                [lc.1, rc.1] (level + 1) with
            | none => none
            | some mc => some (mc.1, lc.2 + rc.2 + mc.2)
      else
        let response := respond (mergePrompt level S context)
        match parse response with
        | some merged => some (merged, 1)
        | none => some (degradedMerge level S.length response, 1)

/-- STEP 4, `_step4_merge_summaries` (source lines 471-558): start the
recursive merge at level 1. -/
def _step4_merge_summaries (usable_context_size : Nat)
    (respond : List Char → List Char) (parse : List Char → Option Json)
    (fuel : Nat) (summaries : List Json) : Option (Json × Nat) :=
  merge_recursive usable_context_size respond parse fuel summaries 1

/-- STEP 5, `_step5_format_results` (source lines 564-605).  The Python
code calls `.get` on the merged summary, which raises `AttributeError`
when the summary is not a dict; `none` models that raise. -/
def _step5_format_results (max_context_size : Nat) (model : String)
    (final_summary : Json) (all_files : List TextUnit)
    (chunks : List (List TextUnit)) : Option Json :=
  match final_summary with
  | Json.obj fs =>
      let total_tokens := (all_files.map TextUnit.tokens).sum
      some (Json.obj [
        ("project_type", jgetD fs ("project_type") (Json.str ("unknown"))),
        ("technologies", jgetD fs ("all_technologies") (Json.arr [])),
        ("state", jgetD fs ("state") (jgetD fs ("overall_purpose") (Json.str ("analyzed")))),
        ("architecture", jgetD fs ("architecture") (Json.str (""))),
        ("quality", jgetD fs ("overall_quality") (Json.str (""))),
        ("patterns", jgetD fs ("key_patterns") (Json.arr [])),
        ("analysis_metadata", Json.obj [
          ("total_files", Json.num all_files.length),
          ("total_tokens", Json.num total_tokens),
          ("chunks_created", Json.num chunks.length),
          ("context_window", Json.num max_context_size),
          ("model", Json.str model)]),
        ("detailed_analysis", final_summary)])
  | _ => none

/-- The canonical empty result of `analyze_repository` (source lines
163-173), returned when gathering found no analyzable files. -/
def emptyResult (branch_context : Option (List Char)) : Json :=
  Json.obj [
    ("project_type", Json.str ("empty")),
    ("technologies", Json.arr []),
    ("state", Json.str ("No analyzable files found")),
    ("analysis_metadata", Json.obj [
      ("total_files", Json.num 0),
      ("total_tokens", Json.num 0),
      ("chunks_created", Json.num 0),
      ("branch", match branch_context with
        | none => Json.null
        | some bc => Json.str (String.mk bc))])]

/-- The branch annotation of source lines 204-206.  Step 5 always places a
dict under analysis_metadata, so the fallback arm is unreachable from the
pipeline. -/
def addBranch (branch_context : Option (List Char)) (result : Json) : Json :=
  match branch_context, result with
  | some bc, Json.obj kvs =>
      let kvs1 := jset kvs ("branch") (Json.str (String.mk bc))
      Json.obj (match jget kvs1 ("analysis_metadata") with
        | some (Json.obj ms) =>
            jset kvs1 ("analysis_metadata")
              (Json.obj (jset ms ("branch") (Json.str (String.mk bc))))
        | _ => kvs1)
  | _, r => r

/-- The pipeline of `analyze_repository` (source lines 136-211) from the
gathered files onward.  Gathering itself (step 1) walks the filesystem and
is out of the embedding; its output `all_files` is a parameter.  The
`usable_context_size` is the value computed in the constructor from the
model capacity (70 percent of it, via float arithmetic), taken here as a
parameter.  The second component of the result counts external capability
calls. -/
def analyze_repository (max_context_size usable_context_size : Nat)
    (model : String) (respond : List Char → List Char)
    (parse : List Char → Option Json) (fuel : Nat)
    (all_files : List TextUnit) (branch_context : Option (List Char)) :
    Option (Json × Nat) :=
  match all_files with
  | [] => some (emptyResult branch_context, 0)
  | _ :: _ =>
    let chunks := _step2_create_chunks usable_context_size all_files
    let s3 := _step3_analyze_chunks respond parse chunks branch_context
    match _step4_merge_summaries usable_context_size respond parse fuel s3.1 with
    | none => none
    | some fc =>
      match _step5_format_results max_context_size model fc.1 all_files chunks with
      | none => none
      | some result => some (addBranch branch_context result, s3.2 + fc.2)

/-- What one input unit contributes to the concatenation of all chunks: an
oversized unit is replaced by its labeled sub-parts, any other unit passes
through unchanged (spec section 8, no unit lost or duplicated modulo
documented splitting). -/
def expandUnit (chunk_size : Nat) (u : TextUnit) : List TextUnit :=
  if chunk_size < u.tokens then splitFileUnits chunk_size u else [u]

/-- The keys of a dict-shaped JSON value. -/
def jkeys : Json → List String
  | .obj kvs => kvs.map Prod.fst
  | _ => []

/-- Lookup on a dict-shaped JSON value. -/
def jlook (j : Json) (key : String) : Option Json :=
  match j with
  | .obj kvs => jget kvs key
  | _ => none

/-- A summary whose serialization (20002 characters) exceeds a realistic
usable budget of 10000 tokens: for instance a verbose parsed model answer.
The merger can never finish on a pair of these, whatever the fuel. -/
def hugeSummary : Json := Json.str (String.mk (List.replicate 20000 'x'))

/-- Divergence of the merge recursion on a concrete oversized pair, with a
stub capability that returns the empty string and a stub parser that always
fails: no amount of fuel produces a result, which models the unbounded
recursion (a Python RecursionError) of `merge_recursive` re-merging the
same two summaries at ever higher levels. -/
def mergeDivergesOnPair : Prop :=
  ∀ fuel level,
    merge_recursive 10000 (fun _ => []) (fun _ => none) fuel
      [hugeSummary, hugeSummary] level = none

end GitLlama

namespace GitLlama

theorem splitIntoParts_length (n : Nat) : ∀ s, (splitIntoParts n s).length = n := by
  induction n with
  | zero => intro s; rfl
  | succ n ih => intro s; simp [splitIntoParts, ih]

theorem splitIntoParts_flatten :
    ∀ (n : Nat) (s : List Char), (0 < n ∨ s = []) →
      (splitIntoParts n s).flatten = s := by
  intro n
  induction n with
  | zero =>
    intro s h
    rcases h with h | h
    · omega
    · subst h; rfl
  | succ n ih =>
    intro s _
    show (s.take ((s.length + n) / (n + 1)) ::
      splitIntoParts n (s.drop ((s.length + n) / (n + 1)))).flatten = s
    have hih : (splitIntoParts n (s.drop ((s.length + n) / (n + 1)))).flatten
        = s.drop ((s.length + n) / (n + 1)) := by
      apply ih
      rcases Nat.eq_zero_or_pos n with hn | hn
      · right; subst hn; simp
      · left; exact hn
    simp only [List.flatten_cons, hih, List.take_append_drop]

theorem splitIntoParts_part_le (k : Nat) :
    ∀ (n : Nat) (s : List Char), s.length ≤ n * k →
      ∀ part ∈ splitIntoParts n s, part.length ≤ k := by
  intro n
  induction n with
  | zero => intro s _ part hp; simp [splitIntoParts] at hp
  | succ n ih =>
    intro s hs part hp
    simp only [splitIntoParts, List.mem_cons] at hp
    have e1 : (n + 1) * k = n * k + k := by ring
    have e1s : n.succ * k = n * k + k := by rw [Nat.succ_eq_add_one]; ring
    rcases hp with hp | hp
    · subst hp
      have hpk : (s.length + n) / (n + 1) ≤ k := by
        apply (Nat.div_le_iff_le_mul_add_pred (Nat.succ_pos n)).mpr
        omega
      simp only [List.length_take]
      exact le_trans inf_le_left hpk
    · apply ih (s.drop ((s.length + n) / (n + 1))) _ part hp
      rw [List.length_drop]
      have hge : s.length - n * k ≤ (s.length + n) / (n + 1) := by
        apply (Nat.le_div_iff_mul_le (Nat.succ_pos n)).mpr
        rcases Nat.le_total s.length (n * k) with hc | hc
        · have h0 : s.length - n * k = 0 := Nat.sub_eq_zero_of_le hc
          rw [h0]
          simp
        · obtain ⟨m, hm⟩ := Nat.exists_eq_add_of_le hc
          have h1 : s.length - n * k = m := by omega
          rw [h1]
          have e3 : m ≤ k := by omega
          have e7 : m * (n + 1) = m * n + m := by ring
          have e7s : m * n.succ = m * n + m := by rw [Nat.succ_eq_add_one]; ring
          have e4 : m * n ≤ k * n := Nat.mul_le_mul_right n e3
          have e5 : k * n = n * k := Nat.mul_comm k n
          omega
      generalize hq : (s.length + n) / (n + 1) = q at hge ⊢
      omega

theorem split_into_chunks_part_le (k : Nat) (content : List Char) :
    ∀ part ∈ split_into_chunks content k, part.length ≤ k := by
  intro part hp
  rcases Nat.eq_zero_or_pos k with hk | hk
  · subst hk
    simp [split_into_chunks, splitIntoParts, Nat.div_zero] at hp
  · apply splitIntoParts_part_le k _ content _ part hp
    rcases Nat.eq_zero_or_pos content.length with hL | hL
    · omega
    · show content.length ≤ (count_tokens content + k - 1) / k * k
      have e1 : count_tokens content + k - 1 = (content.length - 1) + k := by
        simp [count_tokens]; omega
      rw [e1, Nat.add_div_right _ hk]
      have h3 := Nat.div_add_mod (content.length - 1) k
      have h4 : (content.length - 1) % k < k := Nat.mod_lt _ hk
      have e2 : ((content.length - 1) / k + 1) * k
          = (content.length - 1) / k * k + k := by ring
      have e5 : (content.length - 1) / k * k = k * ((content.length - 1) / k) :=
        Nat.mul_comm _ _
      omega

theorem splitFileUnits_tokens_le (k : Nat) (f : TextUnit) :
    ∀ u ∈ splitFileUnits k f, u.tokens ≤ k := by
  intro u hu
  simp only [splitFileUnits, List.mem_map] at hu
  obtain ⟨ic, hic, rfl⟩ := hu
  have h2 : ic.2 ∈ split_into_chunks f.content k := List.snd_mem_of_mem_enum hic
  show count_tokens ic.2 ≤ k
  exact split_into_chunks_part_le k f.content ic.2 h2

theorem chunkTokens_nil : chunkTokens [] = 0 := rfl

theorem chunkTokens_singleton (u : TextUnit) : chunkTokens [u] = u.tokens := by
  simp [chunkTokens]

theorem chunkTokens_append (l1 l2 : List TextUnit) :
    chunkTokens (l1 ++ l2) = chunkTokens l1 + chunkTokens l2 := by
  simp [chunkTokens]

theorem chunkLoop_tokens_le (k : Nat) :
    ∀ (rest current : List TextUnit) (tok : Nat),
      tok = chunkTokens current → tok ≤ k →
      ∀ c ∈ chunkLoop k current tok rest, chunkTokens c ≤ k := by
  intro rest
  induction rest with
  | nil =>
    intro current tok h1 h2 c hc
    simp only [chunkLoop] at hc
    split at hc
    · simp at hc
    · simp only [List.mem_singleton] at hc
      subst hc; omega
  | cons f rest ih =>
    intro current tok h1 h2 c hc
    simp only [chunkLoop] at hc
    split at hc
    · split at hc
      · rw [List.mem_append] at hc
        rcases hc with hc | hc
        · obtain ⟨u, hu, rfl⟩ := List.mem_map.mp hc
          rw [chunkTokens_singleton]
          exact splitFileUnits_tokens_le k f u hu
        · exact ih current tok h1 h2 c hc
      · simp only [List.mem_cons, List.mem_append] at hc
        rcases hc with rfl | hc | hc
        · omega
        · obtain ⟨u, hu, rfl⟩ := List.mem_map.mp hc
          rw [chunkTokens_singleton]
          exact splitFileUnits_tokens_le k f u hu
        · exact ih [] 0 rfl (Nat.zero_le _) c hc
    · rename_i hbig
      split at hc
      · rename_i hover
        split at hc
        · exact ih [f] f.tokens (chunkTokens_singleton f).symm (by omega) c hc
        · rcases List.mem_cons.mp hc with rfl | hc
          · omega
          · exact ih [f] f.tokens (chunkTokens_singleton f).symm (by omega) c hc
      · rename_i hover
        apply ih (current ++ [f]) (tok + f.tokens) _ (by omega) c hc
        rw [chunkTokens_append, chunkTokens_singleton, h1]

/-- C2: every chunk produced by the chunker has total cost at most
`chunkSize = usable_context_size - 500`; this covers both greedily packed
chunks and the singleton chunks produced by splitting an oversized unit. -/
theorem chunker_chunk_cost_le (usable_context_size : Nat) (files : List TextUnit)
    (c : List TextUnit) (hc : c ∈ _step2_create_chunks usable_context_size files) :
    chunkTokens c ≤ usable_context_size - 500 :=
  chunkLoop_tokens_le _ _ [] 0 rfl (Nat.zero_le _) c hc

theorem chunker_chunk_cost_le_witness :
    ([⟨['a'], ['x'], 100, []⟩] : List TextUnit) ∈
        _step2_create_chunks 750 [⟨['a'], ['x'], 100, []⟩] ∧
      chunkTokens [⟨['a'], ['x'], 100, []⟩] ≤ 750 - 500 :=
  ⟨by decide,
    chunker_chunk_cost_le 750 [⟨['a'], ['x'], 100, []⟩]
      [⟨['a'], ['x'], 100, []⟩] (by decide)⟩

theorem chunkLoop_ne_nil (k : Nat) :
    ∀ (rest current : List TextUnit) (tok : Nat),
      ∀ c ∈ chunkLoop k current tok rest, c ≠ [] := by
  intro rest
  induction rest with
  | nil =>
    intro current tok c hc
    simp only [chunkLoop] at hc
    split at hc
    · simp at hc
    · rename_i hne
      simp only [List.mem_singleton] at hc
      subst hc
      simpa [List.isEmpty_iff] using hne
  | cons f rest ih =>
    intro current tok c hc
    simp only [chunkLoop] at hc
    split at hc
    · split at hc
      · rw [List.mem_append] at hc
        rcases hc with hc | hc
        · obtain ⟨u, _, rfl⟩ := List.mem_map.mp hc
          simp
        · exact ih current tok c hc
      · rename_i hne
        simp only [List.mem_cons, List.mem_append] at hc
        rcases hc with rfl | hc | hc
        · simpa [List.isEmpty_iff] using hne
        · obtain ⟨u, _, rfl⟩ := List.mem_map.mp hc
          simp
        · exact ih [] 0 c hc
    · split at hc
      · split at hc
        · exact ih [f] f.tokens c hc
        · rename_i hne
          rcases List.mem_cons.mp hc with rfl | hc
          · simpa [List.isEmpty_iff] using hne
          · exact ih [f] f.tokens c hc
      · exact ih (current ++ [f]) (tok + f.tokens) c hc

/-- C9: no chunk emitted by the chunker is the empty list: running chunks
are flushed only when non-empty and split sub-parts are emitted as
singleton chunks. -/
theorem chunker_chunk_ne_nil (usable_context_size : Nat) (files : List TextUnit)
    (c : List TextUnit) (hc : c ∈ _step2_create_chunks usable_context_size files) :
    c ≠ [] :=
  chunkLoop_ne_nil _ _ [] 0 c hc

theorem chunker_chunk_ne_nil_witness :
    ([⟨['a'], ['x'], 100, []⟩] : List TextUnit) ∈
        _step2_create_chunks 750 [⟨['a'], ['x'], 100, []⟩] ∧
      ([⟨['a'], ['x'], 100, []⟩] : List TextUnit) ≠ [] :=
  ⟨by decide,
    chunker_chunk_ne_nil 750 [⟨['a'], ['x'], 100, []⟩]
      [⟨['a'], ['x'], 100, []⟩] (by decide)⟩

theorem flatten_map_singleton {α : Type} (l : List α) :
    (l.map (fun u => [u])).flatten = l := by
  induction l with
  | nil => rfl
  | cons a l ih => simp [ih]

theorem chunkLoop_flatten (k : Nat) :
    ∀ (rest current : List TextUnit) (tok : Nat),
      (chunkLoop k current tok rest).flatten = current ++ rest.flatMap (expandUnit k) := by
  intro rest
  induction rest with
  | nil =>
    intro current tok
    simp only [chunkLoop]
    split
    · rename_i he
      rw [List.isEmpty_iff] at he
      simp [he]
    · simp
  | cons f rest ih =>
    intro current tok
    simp only [chunkLoop]
    split
    · rename_i hbig
      have he : expandUnit k f = splitFileUnits k f := by
        simp [expandUnit, hbig]
      split
      · rename_i hemp
        rw [List.isEmpty_iff] at hemp
        simp [hemp, ih, flatten_map_singleton, he]
      · simp [ih, flatten_map_singleton, he]
    · rename_i hbig
      have he : expandUnit k f = [f] := by
        simp [expandUnit]
        omega
      split
      · rename_i hemp
        split
        · rename_i h2
          rw [List.isEmpty_iff] at h2
          simp [h2, ih, he]
        · simp [ih, he]
      · simp [ih, he]

/-- C5: the concatenation of the chunker output, in order, is exactly the
sorted input with each oversized unit replaced by its labeled sub-parts;
in particular it is a permutation of the input list expanded the same way,
so no unit is lost or duplicated. -/
theorem chunker_flatten_eq (usable_context_size : Nat) (files : List TextUnit) :
    (_step2_create_chunks usable_context_size files).flatten
        = (sortFiles files).flatMap (expandUnit (usable_context_size - 500)) ∧
      ((_step2_create_chunks usable_context_size files).flatten).Perm
        (files.flatMap (expandUnit (usable_context_size - 500))) := by
  constructor
  · simpa using chunkLoop_flatten (usable_context_size - 500) (sortFiles files) [] 0
  · rw [_step2_create_chunks, chunkLoop_flatten]
    simp only [List.nil_append]
    exact List.Perm.flatMap_right _ (List.perm_insertionSort pathLe files)

end GitLlama

namespace GitLlama

theorem lexLe_cons_iff (x y : Char) (as bs : List Char) :
    lexLe (x :: as) (y :: bs) = true ↔ x < y ∨ (x = y ∧ lexLe as bs = true) := by
  simp only [lexLe]
  rcases lt_trichotomy x y with h | h | h
  · simp [h]
  · subst h
    simp [lt_irrefl]
  · simp [lt_asymm h, h, ne_of_gt h]

theorem lexLe_total : ∀ a b, lexLe a b = true ∨ lexLe b a = true := by
  intro a
  induction a with
  | nil => intro b; left; rfl
  | cons x as ih =>
    intro b
    cases b with
    | nil => right; rfl
    | cons y bs =>
      rcases lt_trichotomy x y with h | h | h
      · left; rw [lexLe_cons_iff]; exact Or.inl h
      · subst h
        rcases ih bs with h2 | h2
        · left; rw [lexLe_cons_iff]; exact Or.inr ⟨rfl, h2⟩
        · right; rw [lexLe_cons_iff]; exact Or.inr ⟨rfl, h2⟩
      · right; rw [lexLe_cons_iff]; exact Or.inl h

theorem lexLe_trans : ∀ a b c, lexLe a b = true → lexLe b c = true →
    lexLe a c = true := by
  intro a
  induction a with
  | nil => intro b c _ _; rfl
  | cons x as ih =>
    intro b c h1 h2
    cases b with
    | nil => simp [lexLe] at h1
    | cons y bs =>
      cases c with
      | nil => simp [lexLe] at h2
      | cons z cs =>
        rw [lexLe_cons_iff] at h1 h2 ⊢
        rcases h1 with h1 | ⟨rfl, h1⟩
        · rcases h2 with h2 | ⟨rfl, h2⟩
          · exact Or.inl (lt_trans h1 h2)
          · exact Or.inl h1
        · rcases h2 with h2 | ⟨rfl, h2⟩
          · exact Or.inl h2
          · exact Or.inr ⟨rfl, ih bs cs h1 h2⟩

theorem lexLe_antisymm : ∀ a b, lexLe a b = true → lexLe b a = true → a = b := by
  intro a
  induction a with
  | nil =>
    intro b h1 h2
    cases b with
    | nil => rfl
    | cons y bs => simp [lexLe] at h2
  | cons x as ih =>
    intro b h1 h2
    cases b with
    | nil => simp [lexLe] at h1
    | cons y bs =>
      rw [lexLe_cons_iff] at h1 h2
      rcases h1 with h1 | ⟨rfl, h1⟩
      · rcases h2 with h2 | ⟨h2e, h2⟩
        · exact absurd h2 (lt_asymm h1)
        · exact absurd h1 (by rw [h2e]; exact lt_irrefl x)
      · rcases h2 with h2 | ⟨h2e, h2⟩
        · exact absurd h2 (lt_irrefl x)
        · rw [ih bs h1 h2]

/-- C8: the chunker output is determined by the set of units, not the input
order: for pairwise-distinct paths, any permutation of the input yields the
same ordered chunk list, because units are sorted by identifier first. -/
theorem chunker_order_independent (usable_context_size : Nat)
    (l1 l2 : List TextUnit) (hperm : l1.Perm l2)
    (hnd : l1.Pairwise (fun a b => a.path ≠ b.path)) :
    _step2_create_chunks usable_context_size l1
      = _step2_create_chunks usable_context_size l2 := by
  suffices h : sortFiles l1 = sortFiles l2 by
    unfold _step2_create_chunks
    rw [h]
  have p1 : (sortFiles l1).Perm l1 := List.perm_insertionSort pathLe l1
  have p2 : (sortFiles l2).Perm l2 := List.perm_insertionSort pathLe l2
  have p12 : (sortFiles l1).Perm (sortFiles l2) := p1.trans (hperm.trans p2.symm)
  have htot : IsTotal TextUnit pathLe := ⟨fun a b => lexLe_total a.path b.path⟩
  have htr : IsTrans TextUnit pathLe :=
    ⟨fun a b c h1 h2 => lexLe_trans a.path b.path c.path h1 h2⟩
  have hs1 : List.Sorted pathLe (sortFiles l1) :=
    @List.sorted_insertionSort TextUnit pathLe inferInstance htot htr l1
  have hs2 : List.Sorted pathLe (sortFiles l2) :=
    @List.sorted_insertionSort TextUnit pathLe inferInstance htot htr l2
  have hnd1 : (sortFiles l1).Pairwise (fun a b => a.path ≠ b.path) :=
    (List.Perm.pairwise_iff (fun h => Ne.symm h) p1).mpr hnd
  have hnd2 : (sortFiles l2).Pairwise (fun a b => a.path ≠ b.path) :=
    (List.Perm.pairwise_iff (fun h => Ne.symm h) p2).mpr
      ((List.Perm.pairwise_iff (fun h => Ne.symm h) hperm).mp hnd)
  have hanti : IsAntisymm TextUnit (fun a b => pathLe a b ∧ a.path ≠ b.path) :=
    ⟨fun a b h1 h2 => absurd (lexLe_antisymm a.path b.path h1.1 h2.1) h1.2⟩
  exact @List.eq_of_perm_of_sorted TextUnit
    (fun a b => pathLe a b ∧ a.path ≠ b.path) hanti _ _ p12
    (hs1.and hnd1) (hs2.and hnd2)

theorem chunker_order_independent_witness :
    (([⟨['b'], ['y'], 50, []⟩, ⟨['a'], ['x'], 100, []⟩] : List TextUnit)).Perm
        [⟨['a'], ['x'], 100, []⟩, ⟨['b'], ['y'], 50, []⟩] ∧
      ([⟨['b'], ['y'], 50, []⟩, ⟨['a'], ['x'], 100, []⟩] : List TextUnit).Pairwise
        (fun a b => a.path ≠ b.path) ∧
      _step2_create_chunks 750 [⟨['b'], ['y'], 50, []⟩, ⟨['a'], ['x'], 100, []⟩]
        = _step2_create_chunks 750
            [⟨['a'], ['x'], 100, []⟩, ⟨['b'], ['y'], 50, []⟩] :=
  ⟨by decide, by decide,
    chunker_order_independent 750
      [⟨['b'], ['y'], 50, []⟩, ⟨['a'], ['x'], 100, []⟩]
      [⟨['a'], ['x'], 100, []⟩, ⟨['b'], ['y'], 50, []⟩]
      (by decide) (by decide)⟩

/-- C6: merging a singleton list of summaries returns that summary
unchanged and makes no external capability call (identity law); any
positive fuel suffices because the recursion returns before consuming
any. -/
theorem merge_singleton_identity (usable_context_size : Nat)
    (respond : List Char → List Char) (parse : List Char → Option Json)
    (fuel level : Nat) (s : Json) :
    merge_recursive usable_context_size respond parse (fuel + 1) [s] level
      = some (s, 0) := rfl

end GitLlama

namespace GitLlama

theorem enum_map_fst_apply {α β : Type} (l : List α) (g : Nat → β) :
    l.enum.map (fun ic => g ic.1) = (List.range l.length).map g := by
  calc l.enum.map (fun ic => g ic.1) = (l.enum.map Prod.fst).map g := by
        rw [List.map_map]; rfl
    _ = (List.range l.length).map g := by rw [List.enum_map_fst]

theorem splitFileUnits_map_content (chunk_size : Nat) (u : TextUnit) :
    (splitFileUnits chunk_size u).map TextUnit.content
      = split_into_chunks u.content chunk_size := by
  simp only [splitFileUnits, List.map_map]
  have h : ((fun x : TextUnit => x.content) ∘ (fun ic : Nat × List Char =>
      ({ path := u.path ++ (" (part " ++ toString (ic.1 + 1) ++ "/" ++
          toString (split_into_chunks u.content chunk_size).length ++ ")").toList
         content := ic.2
         tokens := count_tokens ic.2
         extension := u.extension } : TextUnit)))
      = Prod.snd := rfl
  rw [h, List.enum_map_snd]

theorem step2_singleton_oversized (usable_context_size : Nat) (u : TextUnit)
    (hbig : usable_context_size - 500 < u.tokens) :
    _step2_create_chunks usable_context_size [u]
      = (splitFileUnits (usable_context_size - 500) u).map (fun v => [v]) := by
  unfold _step2_create_chunks sortFiles
  simp [List.insertionSort, chunkLoop, hbig]

/-- C7: an oversized unit (cost above `chunkSize`, cost consistent with its
content) is emitted as exactly `ceil(cost / chunkSize)` singleton chunks
whose contents concatenate to the unit content, contiguously and in order,
each labeled with the unit path plus a part index, and each of cost at
most `chunkSize`. -/
theorem chunker_oversized_split (usable_context_size : Nat) (u : TextUnit)
    (hwf : u.tokens = count_tokens u.content)
    (hk : 0 < usable_context_size - 500)
    (hbig : usable_context_size - 500 < u.tokens) :
    (_step2_create_chunks usable_context_size [u]).length
        = (u.tokens + (usable_context_size - 500) - 1) / (usable_context_size - 500)
    ∧ (∀ c ∈ _step2_create_chunks usable_context_size [u], ∃ v, c = [v])
    ∧ ((_step2_create_chunks usable_context_size [u]).flatten.map
        TextUnit.content).flatten = u.content
    ∧ (_step2_create_chunks usable_context_size [u]).flatten.map TextUnit.path
        = (List.range
            ((u.tokens + (usable_context_size - 500) - 1) /
              (usable_context_size - 500))).map
            (fun i => u.path ++ (" (part " ++ toString (i + 1) ++ "/" ++
              toString ((u.tokens + (usable_context_size - 500) - 1) /
                (usable_context_size - 500)) ++ ")").toList)
    ∧ (∀ c ∈ _step2_create_chunks usable_context_size [u],
        chunkTokens c ≤ usable_context_size - 500)
    ∧ (∀ (current : List TextUnit) (tok : Nat) (rest : List TextUnit),
        current ≠ [] →
        chunkLoop (usable_context_size - 500) current tok (u :: rest)
          = current ::
              ((splitFileUnits (usable_context_size - 500) u).map (fun v => [v])
                ++ chunkLoop (usable_context_size - 500) [] 0 rest)) := by
  have hstep := step2_singleton_oversized usable_context_size u hbig
  have hcnt : count_tokens u.content = u.tokens := hwf.symm
  have hlen : (split_into_chunks u.content (usable_context_size - 500)).length
      = (u.tokens + (usable_context_size - 500) - 1) / (usable_context_size - 500) := by
    rw [split_into_chunks, splitIntoParts_length, hcnt]
  refine ⟨?_, ?_, ?_, ?_, ?_, ?_⟩
  · rw [hstep]
    simp only [List.length_map, splitFileUnits, List.enum_length]
    exact hlen
  · intro c hc
    rw [hstep] at hc
    obtain ⟨v, _, rfl⟩ := List.mem_map.mp hc
    exact ⟨v, rfl⟩
  · rw [hstep, flatten_map_singleton, splitFileUnits_map_content]
    apply splitIntoParts_flatten
    left
    apply (Nat.le_div_iff_mul_le hk).mpr
    rw [hcnt]
    omega
  · rw [hstep, flatten_map_singleton]
    show (List.map TextUnit.path (splitFileUnits (usable_context_size - 500) u)) = _
    simp only [splitFileUnits, List.map_map]
    have h : ((fun x : TextUnit => x.path) ∘ (fun ic : Nat × List Char =>
        ({ path := u.path ++ (" (part " ++ toString (ic.1 + 1) ++ "/" ++
            toString (split_into_chunks u.content
              (usable_context_size - 500)).length ++ ")").toList
           content := ic.2
           tokens := count_tokens ic.2
           extension := u.extension } : TextUnit)))
        = (fun ic : Nat × List Char => u.path ++ (" (part " ++ toString (ic.1 + 1) ++ "/" ++
            toString (split_into_chunks u.content
              (usable_context_size - 500)).length ++ ")").toList) := rfl
    rw [h, enum_map_fst_apply (g := fun i => u.path ++ (" (part " ++ toString (i + 1) ++ "/" ++
        toString (split_into_chunks u.content
          (usable_context_size - 500)).length ++ ")").toList), hlen]
  · intro c hc
    rw [hstep] at hc
    obtain ⟨v, hv, rfl⟩ := List.mem_map.mp hc
    rw [chunkTokens_singleton]
    exact splitFileUnits_tokens_le _ u v hv
  · intro current tok rest hne
    have h1 : current.isEmpty = false := by
      simp [List.isEmpty_iff, hne]
    simp [chunkLoop, hbig, h1]

theorem chunker_oversized_split_witness :
    (_step2_create_chunks 800 [⟨['f'], List.replicate 1000 'a', 1000, []⟩]).length
        = (1000 + (800 - 500) - 1) / (800 - 500)
    ∧ ((_step2_create_chunks 800
        [⟨['f'], List.replicate 1000 'a', 1000, []⟩]).flatten.map
        TextUnit.content).flatten = List.replicate 1000 'a'
    ∧ (_step2_create_chunks 800
        [⟨['f'], List.replicate 1000 'a', 1000, []⟩]).flatten.map TextUnit.path
        = (List.range ((1000 + (800 - 500) - 1) / (800 - 500))).map
            (fun i => ['f'] ++ (" (part " ++ toString (i + 1) ++ "/" ++
              toString ((1000 + (800 - 500) - 1) / (800 - 500)) ++ ")").toList) := by
  obtain ⟨h1, _, h3, h4, _, _⟩ :=
    chunker_oversized_split 800 ⟨['f'], List.replicate 1000 'a', 1000, []⟩
      (List.length_replicate 1000 'a').symm (by decide) (by decide)
  exact ⟨h1, h3, h4⟩

end GitLlama

namespace GitLlama

/-- C4: when gathering yields zero text units, the pipeline returns the
canonical empty result (project type empty, zero files, zero tokens, zero
chunks) and makes zero external capability calls; the chunker, the
summarizer and the merger are never reached because the function returns
before step 2. -/
theorem analyze_repository_empty (max_context_size usable_context_size : Nat)
    (model : String) (respond : List Char → List Char)
    (parse : List Char → Option Json) (fuel : Nat)
    (branch_context : Option (List Char)) :
    analyze_repository max_context_size usable_context_size model respond parse
        fuel [] branch_context = some (emptyResult branch_context, 0)
    ∧ jlook (emptyResult branch_context) ("project_type")
        = some (Json.str ("empty"))
    ∧ (jlook (emptyResult branch_context) ("analysis_metadata")).map
        (fun m => (jlook m ("total_files"), jlook m ("total_tokens"),
          jlook m ("chunks_created")))
        = some (some (Json.num 0), some (Json.num 0), some (Json.num 0)) :=
  ⟨rfl, rfl, rfl⟩

/-- C10 (amended): on any dict-shaped merged summary the formatter returns
a result with the full fixed key set; a missing source field falls back to
a default, which is the string unknown for the project type, empty lists
and empty strings for technologies, patterns, architecture and quality,
and for the state field the overall_purpose field when present, else the
string analyzed; the detailed analysis is the summary itself.  The Python
code cannot raise here because every access uses dict get with a
default. -/
theorem format_results_defaults (max_context_size : Nat) (model : String)
    (fs : List (String × Json)) (all_files : List TextUnit)
    (chunks : List (List TextUnit)) :
    ∃ out, _step5_format_results max_context_size model (Json.obj fs) all_files
        chunks = some (Json.obj out)
      ∧ out.map Prod.fst = [("project_type" : String), ("technologies"),
          ("state"), ("architecture"), ("quality"), ("patterns"),
          ("analysis_metadata"), ("detailed_analysis")]
      ∧ (jget fs ("project_type") = none →
          jget out ("project_type") = some (Json.str ("unknown")))
      ∧ (jget fs ("all_technologies") = none →
          jget out ("technologies") = some (Json.arr []))
      ∧ (jget fs ("state") = none → jget fs ("overall_purpose") = none →
          jget out ("state") = some (Json.str ("analyzed")))
      ∧ (∀ v, jget fs ("state") = none → jget fs ("overall_purpose") = some v →
          jget out ("state") = some v)
      ∧ (jget fs ("architecture") = none →
          jget out ("architecture") = some (Json.str ("")))
      ∧ (jget fs ("overall_quality") = none →
          jget out ("quality") = some (Json.str ("")))
      ∧ (jget fs ("key_patterns") = none →
          jget out ("patterns") = some (Json.arr []))
      ∧ jget out ("detailed_analysis") = some (Json.obj fs) := by
  refine ⟨_, rfl, rfl, ?_, ?_, ?_, ?_, ?_, ?_, ?_, ?_⟩
  · intro h; simp [jget, jgetD, h]
  · intro h; simp [jget, jgetD, h]
  · intro h1 h2; simp [jget, jgetD, h1, h2]
  · intro v h1 h2; simp [jget, jgetD, h1, h2]
  · intro h; simp [jget, jgetD, h]
  · intro h; simp [jget, jgetD, h]
  · intro h; simp [jget, jgetD, h]
  · simp [jget]

theorem format_results_defaults_witness :
    (Option.map (fun out => (jlook out ("project_type"), jlook out ("state"),
        jkeys out))
      (_step5_format_results 4096 ("m") (Json.obj []) [] []))
    = some (some (Json.str ("unknown")), some (Json.str ("analyzed")),
        [("project_type" : String), ("technologies"), ("state"),
          ("architecture"), ("quality"), ("patterns"), ("analysis_metadata"),
          ("detailed_analysis")]) := by
  obtain ⟨out, h1, hkeys, h3, _, h5, _⟩ :=
    format_results_defaults 4096 ("m") [] [] []
  rw [h1]
  simp only [Option.map_some']
  simp [jlook, jkeys, h3 rfl, h5 rfl rfl, hkeys]

/-- C10 counterexample to the claim as stated: for a merged summary with no
fields at all, the state field of the formatted result defaults to the
string analyzed, which is neither the string unknown, nor an empty list,
nor an empty string as the claim requires for every missing field. -/
theorem format_results_state_not_claimed_default :
    (Option.map (fun out => jlook out ("state"))
        (_step5_format_results 4096 ("m") (Json.obj []) [] []))
      = some (some (Json.str ("analyzed"))) := rfl

end GitLlama

namespace GitLlama

theorem mergeContext_pair_len (a b : Json) :
    count_tokens (mergeContext [a, b]) =
      39 + count_tokens (jsonDumps a) + count_tokens (jsonDumps b) := by
  simp [mergeContext, count_tokens, List.enum, List.enumFrom, List.intercalate,
    List.intersperse, List.length_append]
  have h1 : (toString 1).length = 1 := rfl
  have h2 : (toString 2).length = 1 := rfl
  omega

theorem degradedMerge_dumps_len (l n : Nat) (r : List Char) :
    count_tokens (jsonDumps (degradedMerge l n r)) =
      59 + (toString (Int.ofNat l)).length + (toString (Int.ofNat n)).length +
        (r.take 500).length := by
  simp [degradedMerge, jsonDumps, count_tokens, List.attach, List.attachWith,
    List.pmap, List.intercalate, List.intersperse, List.length_append,
    String.toList]
  omega

theorem merge_call_step (usable_context_size : Nat)
    (respond : List Char → List Char) (parse : List Char → Option Json)
    (fuel level : Nat) (a b : Json) (rest : List Json)
    (hfit : count_tokens (mergeContext (a :: b :: rest)) ≤ usable_context_size) :
    merge_recursive usable_context_size respond parse (fuel + 1)
        (a :: b :: rest) level
      = match parse (respond (mergePrompt level (a :: b :: rest)
            (mergeContext (a :: b :: rest)))) with
        | some merged => some (merged, 1)
        | none => some (degradedMerge level (a :: b :: rest).length
            (respond (mergePrompt level (a :: b :: rest)
              (mergeContext (a :: b :: rest)))), 1) := by
  simp only [merge_recursive]
  rw [if_neg (not_lt.mpr hfit)]

/-- C3 (amended): on an external response that fails to parse as JSON, the
chunk summarizer returns the degraded raw-text dict (chunk index, file
count, first 500 characters of the raw response) and the merger, when its
context fits the budget, returns the degraded merge dict (merge level,
count, first 500 characters of the raw response); neither raises (both are
total here, as the parse failure is caught).  The structured fields are
absent from the degraded records, and the freeform raw_analysis field is
non-empty whenever the raw response is non-empty (for an empty response it
is empty, which is what forces the amendment). -/
theorem degrade_on_parse_failure (usable_context_size : Nat)
    (respond : List Char → List Char) (parse : List Char → Option Json) :
    (∀ (chunk : List TextUnit) (chunk_index total_chunks : Nat)
        (branch_context : Option (List Char)),
      parse (respond (chunkPrompt chunk chunk_index total_chunks
          branch_context)) = none →
      _analyze_single_chunk respond parse chunk chunk_index total_chunks
          branch_context
        = (degradedChunk chunk_index chunk.length
            (respond (chunkPrompt chunk chunk_index total_chunks
              branch_context)), 1))
    ∧ (∀ (fuel level : Nat) (a b : Json) (rest : List Json),
      count_tokens (mergeContext (a :: b :: rest)) ≤ usable_context_size →
      parse (respond (mergePrompt level (a :: b :: rest)
          (mergeContext (a :: b :: rest)))) = none →
      merge_recursive usable_context_size respond parse (fuel + 1)
          (a :: b :: rest) level
        = some (degradedMerge level (a :: b :: rest).length
            (respond (mergePrompt level (a :: b :: rest)
              (mergeContext (a :: b :: rest)))), 1))
    ∧ (∀ (chunk_index file_count level n : Nat) (response : List Char),
      jlook (degradedChunk chunk_index file_count response) ("main_purpose")
          = none
      ∧ jlook (degradedChunk chunk_index file_count response) ("technologies")
          = none
      ∧ jlook (degradedMerge level n response) ("project_type") = none
      ∧ jlook (degradedMerge level n response) ("all_technologies") = none
      ∧ jlook (degradedChunk chunk_index file_count response) ("raw_analysis")
          = some (Json.str (String.mk (response.take 500)))
      ∧ jlook (degradedMerge level n response) ("raw_analysis")
          = some (Json.str (String.mk (response.take 500)))
      ∧ (response ≠ [] → String.mk (response.take 500) ≠ (""))) := by
  refine ⟨?_, ?_, ?_⟩
  · intro chunk chunk_index total_chunks branch_context h
    simp only [_analyze_single_chunk, h]
  · intro fuel level a b rest hfit hp
    rw [merge_call_step usable_context_size respond parse fuel level a b
      rest hfit, hp]
  · intro chunk_index file_count level n response
    refine ⟨rfl, rfl, rfl, rfl, rfl, rfl, ?_⟩
    intro hne heq
    have hd : response.take 500 = [] := congrArg String.data heq
    rw [List.take_eq_nil_iff] at hd
    rcases hd with hd | hd
    · exact absurd hd (by omega)
    · exact hne hd

theorem degrade_on_parse_failure_witness :
    _analyze_single_chunk (fun _ => ['n', 'j']) (fun _ => none)
        [⟨['a'], ['x'], 1, []⟩] 1 1 none
      = (degradedChunk 1 1 ['n', 'j'], 1)
    ∧ merge_recursive 10000 (fun _ => ['n', 'j']) (fun _ => none) 5
        [Json.null, Json.null] 1
      = some (degradedMerge 1 2 ['n', 'j'], 1)
    ∧ jlook (degradedChunk 1 1 ['n', 'j']) ("main_purpose") = none
    ∧ String.mk (['n', 'j'].take 500) ≠ ("") := by
  obtain ⟨h1, h2, h3⟩ :=
    degrade_on_parse_failure 10000 (fun _ => ['n', 'j']) (fun _ => none)
  refine ⟨h1 [⟨['a'], ['x'], 1, []⟩] 1 1 none rfl, ?_, (h3 1 1 0 0 []).1, ?_⟩
  · have hfit : count_tokens (mergeContext [Json.null, Json.null]) ≤ 10000 := by
      rw [mergeContext_pair_len]
      have hn : count_tokens (jsonDumps Json.null) = 4 := by
        simp [jsonDumps, count_tokens]
      omega
    exact h2 4 1 Json.null Json.null [] hfit rfl
  · exact (h3 0 0 0 0 ['n', 'j']).2.2.2.2.2.2 (by simp)

/-- C3 counterexample to the claim as stated: an empty external response is
not parseable as JSON, yet the degraded summary it produces has an empty
raw_analysis (freeform notes) field, contradicting the claim that the
freeform notes are always non-empty on parse failure. -/
theorem degrade_empty_notes_cx :
    _analyze_single_chunk (fun _ => []) (fun _ => none)
        [⟨['a'], ['x'], 1, []⟩] 1 1 none
      = (degradedChunk 1 1 [], 1)
    ∧ jlook (degradedChunk 1 1 []) ("raw_analysis")
        = some (Json.str ("")) := ⟨rfl, rfl⟩

end GitLlama

namespace GitLlama

theorem merge_one_step (usable_context_size : Nat)
    (respond : List Char → List Char) (parse : List Char → Option Json)
    (fuel level : Nat) (s : Json) :
    merge_recursive usable_context_size respond parse (fuel + 1) [s] level
      = some (s, 0) := rfl

theorem merge_split_step (usable_context_size : Nat)
    (respond : List Char → List Char) (parse : List Char → Option Json)
    (fuel level : Nat) (a b : Json) (rest : List Json)
    (hbig : usable_context_size < count_tokens (mergeContext (a :: b :: rest))) :
    merge_recursive usable_context_size respond parse (fuel + 1)
        (a :: b :: rest) level
      = match merge_recursive usable_context_size respond parse fuel
            ((a :: b :: rest).take ((a :: b :: rest).length / 2)) level with
        | none => none
        | some lc =>
          match merge_recursive usable_context_size respond parse fuel
              ((a :: b :: rest).drop ((a :: b :: rest).length / 2)) level with
          | none => none
          | some rc =>
            match merge_recursive usable_context_size respond parse fuel
                [lc.1, rc.1] (level + 1) with
            | none => none
            | some mc => some (mc.1, lc.2 + rc.2 + mc.2) := by
  simp only [merge_recursive]
  rw [if_pos hbig]

/-- C1 (amended): the merge terminates with at most `n - 1` external calls
for `n` input summaries, provided every summary it can handle serializes
within a bound `B` for which any two-summary merge context fits the usable
budget: the input summaries, any parsed external result, and any degraded
result at the levels and counts reachable within the given fuel.  Fuel `n`
suffices.  Without such a proviso the recursion need not terminate at
all. -/
theorem merge_terminates_call_bound (usable_context_size B L0 N0 : Nat)
    (respond : List Char → List Char) (parse : List Char → Option Json)
    (hparse : ∀ p j, parse p = some j → count_tokens (jsonDumps j) ≤ B)
    (hdeg : ∀ l n r, l ≤ L0 → n ≤ N0 →
      count_tokens (jsonDumps (degradedMerge l n r)) ≤ B)
    (hfit : ∀ a b : Json, count_tokens (jsonDumps a) ≤ B →
      count_tokens (jsonDumps b) ≤ B →
      count_tokens (mergeContext [a, b]) ≤ usable_context_size) :
    ∀ (fuel : Nat) (S : List Json) (level : Nat),
      (∀ s ∈ S, count_tokens (jsonDumps s) ≤ B) →
      0 < S.length → S.length ≤ fuel → S.length ≤ N0 → level + fuel ≤ L0 →
      ∃ r c,
        merge_recursive usable_context_size respond parse fuel S level
            = some (r, c)
          ∧ c + 1 ≤ S.length ∧ count_tokens (jsonDumps r) ≤ B := by
  intro fuel
  induction fuel with
  | zero =>
    intro S level _ hpos hfuel _ _
    omega
  | succ fuel ih =>
    intro S level hB hpos hfuel hN hL
    cases S with
    | nil => simp at hpos
    | cons a S2 =>
      cases S2 with
      | nil =>
        exact ⟨a, 0, merge_one_step _ respond parse fuel level a, by simp,
          hB a (by simp)⟩
      | cons b rest =>
        by_cases hbig : usable_context_size
            < count_tokens (mergeContext (a :: b :: rest))
        · cases rest with
          | nil =>
            exact absurd hbig (not_lt.mpr (hfit a b (hB a (by simp))
              (hB b (by simp))))
          | cons r1 rest2 =>
            have hlen : (a :: b :: r1 :: rest2).length = rest2.length + 3 := by
              simp
            have hmidlen : ((a :: b :: r1 :: rest2).take
                ((a :: b :: r1 :: rest2).length / 2)).length
                = (a :: b :: r1 :: rest2).length / 2 := by
              rw [List.length_take]
              omega
            have hdroplen : ((a :: b :: r1 :: rest2).drop
                ((a :: b :: r1 :: rest2).length / 2)).length
                = (a :: b :: r1 :: rest2).length
                  - (a :: b :: r1 :: rest2).length / 2 := by
              rw [List.length_drop]
            obtain ⟨l, c1, e1, hb1, hB1⟩ :=
              ih ((a :: b :: r1 :: rest2).take
                  ((a :: b :: r1 :: rest2).length / 2)) level
                (fun s hs => hB s (List.mem_of_mem_take hs))
                (by omega) (by omega) (by omega) (by omega)
            obtain ⟨r, c2, e2, hb2, hB2⟩ :=
              ih ((a :: b :: r1 :: rest2).drop
                  ((a :: b :: r1 :: rest2).length / 2)) level
                (fun s hs => hB s (List.mem_of_mem_drop hs))
                (by omega) (by omega) (by omega) (by omega)
            have hpair : ([l, r] : List Json).length = 2 := rfl
            obtain ⟨m, c3, e3, hb3, hB3⟩ :=
              ih [l, r] (level + 1)
                (by
                  intro s hs
                  simp only [List.mem_cons, List.not_mem_nil, or_false] at hs
                  rcases hs with rfl | rfl
                  · exact hB1
                  · exact hB2)
                (by simp) (by omega) (by omega) (by omega)
            refine ⟨m, c1 + c2 + c3, ?_, by omega, hB3⟩
            rw [merge_split_step usable_context_size respond parse fuel level
              a b (r1 :: rest2) hbig]
            rw [e1, e2]
            simp only []
            rw [e3]
        · rcases hr : parse (respond (mergePrompt level (a :: b :: rest)
              (mergeContext (a :: b :: rest)))) with _ | j
          · refine ⟨degradedMerge level (a :: b :: rest).length
                (respond (mergePrompt level (a :: b :: rest)
                  (mergeContext (a :: b :: rest)))), 1, ?_, by simp, ?_⟩
            · rw [merge_call_step usable_context_size respond parse fuel
                level a b rest (le_of_not_lt hbig), hr]
            · exact hdeg level (a :: b :: rest).length _ (by omega) hN
          · refine ⟨j, 1, ?_, by simp, hparse _ _ hr⟩
            rw [merge_call_step usable_context_size respond parse fuel
              level a b rest (le_of_not_lt hbig), hr]

end GitLlama

namespace GitLlama

theorem merge_terminates_call_bound_witness :
    merge_recursive 1300 (fun _ => []) (fun _ => some Json.null) 2
        [Json.null, Json.null] 1 = some (Json.null, 1)
      ∧ 1 + 1 ≤ 2 ∧ count_tokens (jsonDumps Json.null) ≤ 600 := by
  have hnull : count_tokens (jsonDumps Json.null) = 4 := by
    simp [jsonDumps, count_tokens]
  have hfitnn : count_tokens (mergeContext [Json.null, Json.null]) ≤ 1300 := by
    rw [mergeContext_pair_len]
    omega
  obtain ⟨r, c, he, hb, hs⟩ := merge_terminates_call_bound 1300 600 10 5
    (fun _ => []) (fun _ => some Json.null)
    (fun p j hp => by
      injection hp with hj
      subst hj
      omega)
    (fun l n r hl hn => by
      rw [degradedMerge_dumps_len]
      have htl : (toString (Int.ofNat l)).length ≤ 2 := by
        interval_cases l <;> decide
      have htn : (toString (Int.ofNat n)).length ≤ 1 := by
        interval_cases n <;> decide
      have htk : (r.take 500).length ≤ 500 := List.length_take_le 500 r
      omega)
    (fun a b ha hb => by
      rw [mergeContext_pair_len]
      omega)
    2 [Json.null, Json.null] 1
    (fun s hs => by
      simp only [List.mem_cons, List.not_mem_nil, or_false] at hs
      rcases hs with rfl | rfl <;> omega)
    (by simp) (by simp) (by simp) (by omega)
  have hdirect : merge_recursive 1300 (fun _ => []) (fun _ => some Json.null) 2
      [Json.null, Json.null] 1 = some (Json.null, 1) := by
    rw [merge_call_step 1300 (fun _ => []) (fun _ => some Json.null) 1 1
      Json.null Json.null [] hfitnn]
  exact ⟨hdirect, by omega, by omega⟩

/-- C1 counterexample to the claim as stated: with a usable budget of
10000 tokens and two summaries whose serializations each have 20002
characters — as a verbose external model can produce — the merge recursion
never terminates: splitting the pair yields the same two summaries back,
which are then re-merged at the next level, forever.  In the fuel model no
fuel is enough, so in particular the external call count bound is
unattainable because no run completes. -/
theorem merge_pair_diverges (usable_context_size : Nat)
    (respond : List Char → List Char) (parse : List Char → Option Json)
    (a b : Json)
    (hbig : usable_context_size < count_tokens (mergeContext [a, b])) :
    ∀ fuel level,
      merge_recursive usable_context_size respond parse fuel [a, b] level
        = none := by
  intro fuel
  induction fuel with
  | zero => intro level; rfl
  | succ fuel ih =>
    intro level
    rw [merge_split_step usable_context_size respond parse fuel level a b []
      hbig]
    have hl : ([a, b] : List Json).length / 2 = 1 := by simp
    simp only [hl, List.take_succ_cons, List.take_zero, List.drop_succ_cons,
      List.drop_zero]
    cases fuel with
    | zero => rfl
    | succ f =>
      simp only [merge_one_step]
      rw [ih]

theorem merge_nontermination_cx : mergeDivergesOnPair := by
  have hd : count_tokens (jsonDumps hugeSummary) = 20002 := by
    have h1 : count_tokens (jsonDumps hugeSummary)
        = ('"' :: ((String.mk (List.replicate 20000 'x')).toList ++ ['"'])).length := by
      rw [hugeSummary, jsonDumps]
      rfl
    have h2 : (String.mk (List.replicate 20000 'x')).toList
        = List.replicate 20000 'x' := rfl
    rw [h1, h2, List.length_cons, List.length_append, List.length_replicate]
    rfl
  have hbig : 10000 < count_tokens (mergeContext [hugeSummary, hugeSummary]) := by
    rw [mergeContext_pair_len, hd]
    omega
  intro fuel level
  exact merge_pair_diverges 10000 (fun _ => []) (fun _ => none) hugeSummary
    hugeSummary hbig fuel level

end GitLlama
